import Mathlib

/-!
# Verification of the Numeric Input State Engine

Shallow embedding of `packages/@react-stately/numberfield/src/useNumberFieldState.ts`.

Conventions of the embedding:
* JavaScript `number` values handled by the engine are modelled as `ℚ`;
  the `NaN` sentinel ("empty") is modelled as `none` of `Option ℚ`.
* JavaScript strings are modelled as `List Char`.
* The external locale formatter is modelled through its `formatToParts`
  output (a list of typed parts), exactly as the source consumes it.
* The external locale parser (`numberParser.parse`, NaN on failure) is a
  `List Char → Option ℚ` parameter of the configuration.
-/

namespace NumberField

/-- Embedding of JavaScript `Math.round` on the rationals handled by the
engine: round half toward positive infinity.  Defined through the executable
`Rat.floor` so that concrete instances evaluate. -/
def qround (q : ℚ) : ℤ := (q + 1 / 2).floor

/-- Fuel-based largest exponent `e` with `p ^ e ∣ n` (for `2 ≤ p`, `0 < n`). -/
def maxPowAux : ℕ → ℕ → ℕ → ℕ
  | 0, _, _ => 0
  | fuel + 1, p, n =>
    if 2 ≤ p ∧ n % p = 0 ∧ 0 < n / p then maxPowAux fuel p (n / p) + 1 else 0

def maxPow (p n : ℕ) : ℕ := maxPowAux n p n

/-- Number of significant fractional decimal digits of `q`; embeds the
source's `value.toString().split('.')[1].length` for values that have a
finite decimal representation (the only values on which the decimal-safe
arithmetic is specified to be exact). -/
def fracLen (q : ℚ) : ℕ := max (maxPow 2 q.den) (maxPow 5 q.den)

/-- `q` is representable with finitely many decimal digits. -/
def FiniteDec (q : ℚ) : Prop := ∃ n : ℕ, q.den ∣ 10 ^ n

/-- Embedding of `handleDecimalOperation` (source lines 298-321).  The
JavaScript guard `value1 % 1 !== 0 || value2 % 1 !== 0` ("do we have
decimals") is the denominator test on `ℚ`; the decimal branch scales both
operands by `10 ^ d` for `d` the larger fractional-digit count, rounds to
integers, operates on the integers and divides back. -/
def handleDecimalOperation (operator : Char) (value1 value2 : ℚ) : ℚ :=
  if value1.den ≠ 1 ∨ value2.den ≠ 1 then
    let multiplier : ℚ := 10 ^ max (fracLen value1) (fracLen value2)
    let i1 : ℤ := qround (value1 * multiplier)
    let i2 : ℤ := qround (value2 * multiplier)
    ((if operator = '+' then i1 + i2 else i1 - i2 : ℤ) : ℚ) / multiplier
  else
    if operator = '+' then value1 + value2 else value1 - value2

/-- Modelled from the spec: the step-aware `clamp` used by the engine comes
from `@react-aria/utils`, which is not among the sampled sources.  Per §4.5
and the glossary, the value is clamped into `[min, max]` first, then snapped
to the nearest point of the step grid anchored at `min`, staying within the
bounds. -/
def clamp (value minV maxV : ℚ) (step : Option ℚ) : ℚ :=
  match step with
  | none => min (max value minV) maxV
  | some s =>
    if s ≤ 0 then min (max value minV) maxV
    else
      min (max (minV + ((qround ((min (max value minV) maxV - minV) / s) : ℤ) : ℚ) * s)
        minV) maxV

/-! ## Formatter parts, symbols, numeral systems -/

/-- The part types produced by `Intl.NumberFormat.formatToParts`, as consumed
by the source. -/
inductive PartType
  | integer
  | fraction
  | group
  | decimal
  | minusSign
  | plusSign
  | currency
  | percentSign
  | literal
  | nan
  | infinity
  | unit
  deriving DecidableEq

structure Part where
  ptype : PartType
  pvalue : List Char
  deriving DecidableEq

structure Symbols where
  minusSign : List Char
  plusSign : List Char
  decimal : List Char
  validCharacters : List Char
  literals : List Char
  deriving DecidableEq

/-- Embedding of the `symbols` memo (source lines 51-66): probe parts of
`-1000.1` (`allParts`) and `1000.1` (`posAllParts`) are decomposed; the minus
sign is suppressed when `minValue >= 0` (or absent), the plus sign when
`maxValue <= 0` (or absent); `validCharacters` collects every part value that
is not a digit or sign, `literals` additionally excludes the decimal
separator.  The escaped-regex strings of the source act as character classes,
modelled as the lists of their characters. -/
def computeSymbols (allParts posAllParts : List Part) (minValue maxValue : ℚ) :
    Symbols :=
  let minusSign0 := ((allParts.find? (fun p => p.ptype == PartType.minusSign)).map
    Part.pvalue).getD []
  let plusSign0 := ((posAllParts.find? (fun p => p.ptype == PartType.plusSign)).map
    Part.pvalue).getD []
  let minusSign := if 0 ≤ minValue ∨ minusSign0 = [] then [] else minusSign0
  let plusSign := if maxValue ≤ 0 ∨ plusSign0 = [] then [] else plusSign0
  let decimal := ((allParts.find? (fun p => p.ptype == PartType.decimal)).map
    Part.pvalue).getD []
  let validCharacters := allParts.foldl (fun chars p =>
    if p.ptype = PartType.fraction ∨ p.ptype = PartType.integer ∨
        p.ptype = PartType.minusSign ∨ p.ptype = PartType.plusSign
    then chars else chars ++ p.pvalue) []
  let literals := allParts.foldl (fun chars p =>
    if p.ptype = PartType.decimal ∨ p.ptype = PartType.fraction ∨
        p.ptype = PartType.integer ∨ p.ptype = PartType.minusSign ∨
        p.ptype = PartType.plusSign
    then chars else chars ++ p.pvalue) []
  ⟨minusSign, plusSign, decimal, validCharacters, literals⟩

inductive NumeralSystem
  | arab
  | hanidec
  | latin
  deriving DecidableEq

def arabDigits : List Char := ['٠', '١', '٢', '٣', '٤', '٥', '٦', '٧', '٨', '٩']

def hanidecDigits : List Char := ['〇', '一', '二', '三', '四', '五', '六', '七', '八', '九']

def latinDigits : List Char := ['0', '1', '2', '3', '4', '5', '6', '7', '8', '9']

/-- The `numberingSystems` map (source lines 32-36), in its fixed insertion
order `arab`, `hanidec`, `latin` (JavaScript `for...in` iterates string keys
in insertion order). -/
def numberingSystems : List (NumeralSystem × List Char) :=
  [(NumeralSystem.arab, arabDigits), (NumeralSystem.hanidec, hanidecDigits),
    (NumeralSystem.latin, latinDigits)]

def digitsOf : NumeralSystem → List Char
  | NumeralSystem.arab => arabDigits
  | NumeralSystem.hanidec => hanidecDigits
  | NumeralSystem.latin => latinDigits

/-- The scan loop of `determineNumeralSystem`: the first system (in the fixed
order) some character of the input belongs to. -/
def detectSystem (value : List Char) : Option NumeralSystem :=
  (numberingSystems.find? (fun sys =>
    value.any (fun char => sys.2.any (fun numeral => decide (numeral = char))))).map
    Prod.fst

/-! ## Engine state and operations -/

structure EngineState where
  numberValue : Option ℚ
  inputValue : List Char
  tempNum : Option ℚ
  currentNumeralSystem : NumeralSystem
  deriving DecidableEq

/-- Embedding of `determineNumeralSystem` (source lines 171-182): returns the
detected system and performs the `setCurrentNumeralSystem` side effect; when
no digit of any known system occurs, it returns `latin` WITHOUT updating the
stored state. -/
def determineNumeralSystem (st : EngineState) (value : List Char) :
    EngineState × NumeralSystem :=
  match detectSystem value with
  | some system => ({ st with currentNumeralSystem := system }, system)
  | none => (st, NumeralSystem.latin)

/-- JavaScript `String.prototype.indexOf` (first match index, `-1` when
absent; the empty pattern matches at `0`). -/
def strIndexOf (s pat : List Char) : ℤ :=
  match (List.range (s.length + 1)).find? (fun i => (s.drop i).take pat.length == pat) with
  | some i => (i : ℤ)
  | none => -1

/-- JavaScript `String.prototype.replace(pat, '')` for a string pattern:
removes the FIRST occurrence of `pat` only. -/
def strReplaceOnce (s pat : List Char) : List Char :=
  let i := strIndexOf s pat
  if i < 0 then s else s.take i.toNat ++ s.drop (i.toNat + pat.length)

/-- Embedding of `replaceAllButFirstOccurrence` (source lines 225-230):
`prefix = substring(0, first + 1)`, `suffix = substring(first + 1).replace(char, '')`. -/
def replaceAllButFirstOccurrence (val char : List Char) : List Char :=
  let first := strIndexOf val char
  val.take (first + 1).toNat ++ strReplaceOnce (val.drop (first + 1).toNat) char

/-- `CURRENCY_SIGN_REGEX = ^\(.*\)$` (source line 38). -/
def currencySignMatch (s : List Char) : Bool :=
  decide (2 ≤ s.length ∧ s.head? = some '(' ∧ s.getLast? = some ')')

def maxSafeInteger : ℚ := 2 ^ 53 - 1

def minSafeInteger : ℚ := -(2 ^ 53 - 1)

/-- Engine configuration: the props after defaulting (`minValue`, `maxValue`,
`step`, format options) together with the external locale collaborators. -/
structure Config where
  minValue : ℚ
  maxValue : ℚ
  step : Option ℚ
  stylePercent : Bool
  currencyAccounting : Bool
  negProbeParts : List Part
  posProbeParts : List Part
  formatToParts : ℚ → List Part
  parse : List Char → Option ℚ
  format : ℚ → List Char

def isMaxRange (cfg : Config) : Prop :=
  cfg.minValue = minSafeInteger ∧ cfg.maxValue = maxSafeInteger

instance (cfg : Config) : Decidable (isMaxRange cfg) := by
  unfold isMaxRange
  infer_instance

def symbolsOf (cfg : Config) : Symbols :=
  computeSymbols cfg.negProbeParts cfg.posProbeParts cfg.minValue cfg.maxValue

/-- Embedding of `roundValueUsingFormatter` (source lines 191-223). -/
def roundValueUsingFormatter (cfg : Config) (value : ℚ) : Option ℚ :=
  let parts := cfg.formatToParts value
  let strippedValue := (parts.map (fun part =>
    match part.ptype with
    | PartType.currency | PartType.nan | PartType.percentSign | PartType.group
    | PartType.infinity | PartType.literal | PartType.unit => ([] : List Char)
    | _ => part.pvalue)).flatten
  let result := cfg.parse strippedValue
  let result := if cfg.currencyAccounting ∧ value < 0 then result.map (fun r => -r)
    else result
  if cfg.stylePercent then result.map (fun r => r / 100) else result

/-- The sanitized display string of `setValue` (source lines 235-238): strip
every character that is neither a resolved sign, a digit of the detected
system, nor a valid locale character; then de-duplicate minus, plus and
decimal through `replaceAllButFirstOccurrence`. -/
def strippedValueOf (cfg : Config) (system : NumeralSystem) (value : List Char) :
    List Char :=
  let sym := symbolsOf cfg
  let stripped := value.filter (fun c =>
    decide (c ∈ sym.minusSign) || decide (c ∈ sym.plusSign) ||
    decide (c ∈ digitsOf system) || decide (c ∈ sym.validCharacters))
  let stripped := replaceAllButFirstOccurrence stripped sym.minusSign
  let stripped := replaceAllButFirstOccurrence stripped sym.plusSign
  replaceAllButFirstOccurrence stripped sym.decimal

/-- The parse-ready remainder (source line 241): the sanitized string with
every literal character removed. -/
def parseReadyOf (cfg : Config) (system : NumeralSystem) (value : List Char) :
    List Char :=
  (strippedValueOf cfg system value).filter (fun c =>
    decide (c ∉ (symbolsOf cfg).literals))

/-- The numeric candidate of `setValue` (source lines 242-250): parse the
parse-ready remainder, then apply the accounting-negation and percent
adjustments. -/
def parsedValueOf (cfg : Config) (system : NumeralSystem) (value : List Char) :
    Option ℚ :=
  let newValue := cfg.parse (parseReadyOf cfg system value)
  let newValue := if cfg.currencyAccounting ∧
      currencySignMatch (strippedValueOf cfg system value)
    then newValue.map (fun v => -v) else newValue
  if cfg.stylePercent then newValue.map (fun v => v / 100) else newValue

/-- Embedding of `setValue` (source lines 232-262).  Note the early return:
when the parsed candidate is a number outside `[minValue, maxValue]`, NOTHING
is updated (not even the display string); in-range candidates stash the
formatter-rounded value in `tempNum` and update the display; unparseable
input updates the display only. -/
def setValue (cfg : Config) (st : EngineState) (value : List Char) : EngineState :=
  let det := determineNumeralSystem st value
  let strippedValue := strippedValueOf cfg det.2 value
  match parsedValueOf cfg det.2 value with
  | some newValue =>
    if newValue > cfg.maxValue ∨ newValue < cfg.minValue then det.1
    else { det.1 with tempNum := roundValueUsingFormatter cfg newValue,
                      inputValue := strippedValue }
  | none => { det.1 with inputValue := strippedValue }

/-- Embedding of `commitInputValue` (source lines 264-282). -/
def commitInputValue (cfg : Config) (st : EngineState) : EngineState :=
  if st.inputValue.length = 0 then
    { st with tempNum := none, numberValue := none, inputValue := [] }
  else
    let clampedValue : Option ℚ :=
      match st.tempNum with
      | some t => some (clamp t cfg.minValue cfg.maxValue cfg.step)
      | none => st.numberValue.map (fun v => clamp v cfg.minValue cfg.maxValue cfg.step)
    { st with
      numberValue := clampedValue,
      tempNum := none,
      inputValue := match clampedValue with
        | none => []
        | some v => cfg.format v }

/-- Embedding of `increment` (source lines 100-127): seed an empty value from
`minValue` (or `0` when the range is maximal, or `maxValue` when only the
lower end is unbounded), prefer a pending `tempNum` (consuming it), add the
step decimal-safely, clamp. -/
def increment (cfg : Config) (st : EngineState) : EngineState :=
  let seeded : ℚ :=
    match st.numberValue with
    | some v => v
    | none =>
      if isMaxRange cfg then 0
      else if cfg.minValue = minSafeInteger then cfg.maxValue
      else cfg.minValue
  let prev : ℚ :=
    match st.tempNum with
    | some t => t
    | none => seeded
  let newValue :=
    clamp (handleDecimalOperation '+' prev ((cfg.step).getD 1))
      cfg.minValue cfg.maxValue cfg.step
  { st with numberValue := some newValue, tempNum := none }

/-- Embedding of `decrement` (source lines 135-161), mirror image of
`increment`. -/
def decrement (cfg : Config) (st : EngineState) : EngineState :=
  let seeded : ℚ :=
    match st.numberValue with
    | some v => v
    | none =>
      if isMaxRange cfg then 0
      else if cfg.maxValue = maxSafeInteger then cfg.minValue
      else cfg.maxValue
  let prev : ℚ :=
    match st.tempNum with
    | some t => t
    | none => seeded
  let newValue :=
    clamp (handleDecimalOperation '-' prev ((cfg.step).getD 1))
      cfg.minValue cfg.maxValue cfg.step
  { st with numberValue := some newValue, tempNum := none }

/-- Embedding of `incrementToMax` (source lines 129-133): sets the clamped
maximum; `tempNum` is not touched. -/
def incrementToMax (cfg : Config) (st : EngineState) : EngineState :=
  { st with numberValue := some (clamp cfg.maxValue cfg.minValue cfg.maxValue cfg.step) }

/-- Embedding of `decrementToMin` (source lines 163-167). -/
def decrementToMin (cfg : Config) (st : EngineState) : EngineState :=
  { st with numberValue := some (clamp cfg.minValue cfg.minValue cfg.maxValue cfg.step) }

/-- The `useEffect` of source lines 94-96: reflect the committed number into
the display string. -/
def syncInputValue (cfg : Config) (st : EngineState) : EngineState :=
  { st with inputValue := match st.numberValue with
    | none => []
    | some v => cfg.format v }

/-! ## Change dispatch -/

/-- Embedding of `smartOnChange` (source lines 79-86): given the last
dispatched value and the newly produced one, returns the new "last
dispatched" and the list of values actually handed to `onChange` (empty when
the notification is suppressed). -/
def smartOnChange (last val : Option ℚ) : Option ℚ × List (Option ℚ) :=
  (val, if val ≠ none ∨ last ≠ none then [val] else [])

/-- Fold `smartOnChange` over a sequence of produced values, collecting every
notification that reaches the caller. -/
def runDispatch : Option ℚ → List (Option ℚ) → List (Option ℚ)
  | _, [] => []
  | last, v :: vs => (smartOnChange last v).2 ++ runDispatch (smartOnChange last v).1 vs

/-! ## Concrete collaborator fixtures

The locale parser and formatter are external collaborators (spec §6); these
small concrete instances are used to instantiate the theorems' witnesses. -/

def digitVal (c : Char) : Option ℕ :=
  if '0' ≤ c ∧ c ≤ '9' then some (c.toNat - '0'.toNat) else none

def parseNatDigits (s : List Char) : Option ℕ :=
  if s = [] then none
  else s.foldl (fun acc c =>
    match acc, digitVal c with
    | some a, some d => some (a * 10 + d)
    | _, _ => none) (some 0)

def latinParseUnsigned (s : List Char) : Option ℚ :=
  let intPart := s.takeWhile (fun c => c != '.')
  match s.dropWhile (fun c => c != '.') with
  | [] => (parseNatDigits intPart).map (fun n => (n : ℚ))
  | '.' :: frac =>
    match parseNatDigits intPart, parseNatDigits frac with
    | some i, some f => some ((i : ℚ) + (f : ℚ) / 10 ^ frac.length)
    | _, _ => none
  | _ => none

/-- A plain Latin-digit decimal parser standing in for the external locale
number parser (`parse(string) -> number`, NaN on failure). -/
def latinParse (s : List Char) : Option ℚ :=
  match s with
  | '-' :: rest => (latinParseUnsigned rest).map (fun q => -q)
  | _ => latinParseUnsigned s

/-- `formatToParts(-1000.1)` of a plain `en-US` number formatter. -/
def enUSNegParts : List Part :=
  [⟨PartType.minusSign, ['-']⟩, ⟨PartType.integer, ['1']⟩, ⟨PartType.group, [',']⟩,
    ⟨PartType.integer, ['0', '0', '0']⟩, ⟨PartType.decimal, ['.']⟩,
    ⟨PartType.fraction, ['1']⟩]

/-- `formatToParts(1000.1)` of the same formatter (no plus sign emitted). -/
def enUSPosParts : List Part :=
  [⟨PartType.integer, ['1']⟩, ⟨PartType.group, [',']⟩,
    ⟨PartType.integer, ['0', '0', '0']⟩, ⟨PartType.decimal, ['.']⟩,
    ⟨PartType.fraction, ['1']⟩]

/-- Formatter stand-in whose output no settled claim consumes. -/
def trivFormatToParts : ℚ → List Part := fun _ => []

def trivFormat : ℚ → List Char := fun _ => []

/-- Range `[0, 10]`, step `1`, plain `en-US` options. -/
def cfg10 : Config :=
  ⟨0, 10, some 1, false, false, enUSNegParts, enUSPosParts, trivFormatToParts,
    latinParse, trivFormat⟩

/-- Range `[0, 100]`, no step. -/
def cfg100 : Config :=
  ⟨0, 100, none, false, false, enUSNegParts, enUSPosParts, trivFormatToParts,
    latinParse, trivFormat⟩

/-- Range `[-100, 100]` (minus sign active), no step. -/
def cfgNeg : Config :=
  ⟨-100, 100, none, false, false, enUSNegParts, enUSPosParts, trivFormatToParts,
    latinParse, trivFormat⟩

/-- Range `[0, 100]`, step `1/10`, for the decimal-arithmetic example. -/
def cfgDec : Config :=
  ⟨0, 100, some (1 / 10), false, false, enUSNegParts, enUSPosParts, trivFormatToParts,
    latinParse, trivFormat⟩

/-- The empty editing state. -/
def st0 : EngineState := ⟨none, [], none, NumeralSystem.latin⟩

/-! ## Helper lemmas -/

theorem qround_eq_round (q : ℚ) : qround q = round q := by
  rw [round_eq, qround, Rat.floor_def' (q + 1 / 2), Rat.floor_def]

theorem qround_intCast (k : ℤ) : qround (k : ℚ) = k := by
  rw [qround_eq_round, round_intCast]

theorem maxPowAux_ge {p : ℕ} (hp : 2 ≤ p) :
    ∀ (fuel n e : ℕ), 0 < n → n ≤ fuel → p ^ e ∣ n → e ≤ maxPowAux fuel p n := by
  intro fuel
  induction fuel with
  | zero => intro n e hn hle _; omega
  | succ fuel ih =>
    intro n e hn hle hdvd
    match e with
    | 0 => exact Nat.zero_le _
    | e + 1 =>
      have hp0 : 0 < p := by omega
      have hpn : p ∣ n := dvd_trans (dvd_pow_self p (Nat.succ_ne_zero e)) hdvd
      have hple : p ≤ n := Nat.le_of_dvd hn hpn
      have hmod : n % p = 0 := by
        obtain ⟨m0, rfl⟩ := hpn
        exact Nat.mul_mod_right p m0
      have hq : 0 < n / p := Nat.div_pos hple hp0
      obtain ⟨m, hm⟩ := hdvd
      have hm' : n = p * (p ^ e * m) := by rw [hm, pow_succ]; ring
      have hdiv : n / p = p ^ e * m := by rw [hm', Nat.mul_div_cancel_left _ hp0]
      simp only [maxPowAux, if_pos (And.intro hp (And.intro hmod hq))]
      have hrec : e ≤ maxPowAux fuel p (n / p) := by
        have hlt : n / p < n := Nat.div_lt_self hn (by omega)
        exact ih (n / p) e hq (by omega) ⟨m, hdiv⟩
      omega

theorem maxPow_ge {p n e : ℕ} (hp : 2 ≤ p) (hn : 0 < n) (h : p ^ e ∣ n) :
    e ≤ maxPow p n :=
  maxPowAux_ge hp n n e hn le_rfl h

/-- A denominator dividing some power of ten divides `10 ^ fracLen`. -/
theorem den_dvd_pow_fracLen {q : ℚ} (h : FiniteDec q) : q.den ∣ 10 ^ fracLen q := by
  obtain ⟨n, hn⟩ := h
  have h10 : (10 : ℕ) ^ n = 2 ^ n * 5 ^ n := by
    rw [show (10 : ℕ) = 2 * 5 by norm_num, mul_pow]
  rw [h10] at hn
  obtain ⟨x, y, hx, hy, hxy⟩ := Nat.dvd_mul.mp hn
  obtain ⟨i, _, rfl⟩ := (Nat.dvd_prime_pow Nat.prime_two).mp hx
  obtain ⟨j, _, rfl⟩ := (Nat.dvd_prime_pow Nat.prime_five).mp hy
  have hden : q.den = 2 ^ i * 5 ^ j := hxy.symm
  have hdpos : 0 < q.den := q.pos
  have hi : i ≤ maxPow 2 q.den :=
    maxPow_ge (by norm_num) hdpos (hden ▸ Dvd.intro _ rfl)
  have hj : j ≤ maxPow 5 q.den :=
    maxPow_ge (by norm_num) hdpos (hden ▸ Dvd.intro_left _ rfl)
  have h2 : (2 : ℕ) ^ i ∣ 2 ^ fracLen q := pow_dvd_pow 2 (le_trans hi (le_max_left _ _))
  have h5 : (5 : ℕ) ^ j ∣ 5 ^ fracLen q := pow_dvd_pow 5 (le_trans hj (le_max_right _ _))
  calc q.den = 2 ^ i * 5 ^ j := hden
    _ ∣ 2 ^ fracLen q * 5 ^ fracLen q := mul_dvd_mul h2 h5
    _ = 10 ^ fracLen q := by rw [← mul_pow]; norm_num

/-- If `q.den ∣ 10 ^ k` then `q * 10 ^ k` is an integer. -/
theorem mul_pow_ten_int {q : ℚ} {k : ℕ} (h : q.den ∣ 10 ^ k) :
    ∃ z : ℤ, q * (10 : ℚ) ^ k = (z : ℚ) := by
  obtain ⟨c, hc⟩ := h
  refine ⟨q.num * c, ?_⟩
  have hden : ((q.den : ℚ)) ≠ 0 := Nat.cast_ne_zero.mpr q.den_ne_zero
  have h10 : ((10 : ℚ)) ^ k = ((q.den : ℚ)) * (c : ℚ) := by
    have h := congrArg (fun m : ℕ => (m : ℚ)) hc
    push_cast at h
    exact h
  have hq : q * (q.den : ℚ) = (q.num : ℚ) := by
    have h := Rat.num_div_den q
    rw [div_eq_iff hden] at h
    exact h.symm
  rw [h10, ← mul_assoc, hq]
  push_cast
  ring

theorem qround_exact {q : ℚ} (h : FiniteDec q) {d : ℕ} (hd : fracLen q ≤ d) :
    ((qround (q * (10 : ℚ) ^ d) : ℤ) : ℚ) = q * (10 : ℚ) ^ d := by
  obtain ⟨z, hz⟩ :=
    mul_pow_ten_int (dvd_trans (den_dvd_pow_fracLen h) (pow_dvd_pow 10 hd))
  rw [hz, qround_intCast]

/-- On finite decimals the integer-scaled algorithm is exact: it returns the
true rational sum/difference, with no representation drift. -/
theorem handleDecimalOperation_exact (operator : Char) {v1 v2 : ℚ}
    (h1 : FiniteDec v1) (h2 : FiniteDec v2) :
    handleDecimalOperation operator v1 v2 =
      if operator = '+' then v1 + v2 else v1 - v2 := by
  unfold handleDecimalOperation
  by_cases hden : v1.den ≠ 1 ∨ v2.den ≠ 1
  · rw [if_pos hden]
    dsimp only
    have e1 := qround_exact h1 (le_max_left (fracLen v1) (fracLen v2))
    have e2 := qround_exact h2 (le_max_right (fracLen v1) (fracLen v2))
    have hm : ((10 : ℚ) ^ max (fracLen v1) (fracLen v2)) ≠ 0 := by positivity
    by_cases hop : operator = '+'
    · rw [if_pos hop, if_pos hop]
      push_cast
      rw [e1, e2]
      field_simp
      ring
    · rw [if_neg hop, if_neg hop]
      push_cast
      rw [e1, e2]
      field_simp
      ring
  · rw [if_neg hden]

/-- If range-clamping `x` into `[min, max]` yields a point of the step grid,
`clamp` returns that point. -/
theorem clamp_eq_of_rangeClamp {x minV maxV s y : ℚ} (hs : 0 < s)
    (hy : min (max x minV) maxV = y) (hgrid : ∃ k : ℤ, y = minV + k * s)
    (hminy : minV ≤ y) (hmaxy : y ≤ maxV) :
    clamp x minV maxV (some s) = y := by
  obtain ⟨k, hk⟩ := hgrid
  show (if s ≤ 0 then min (max x minV) maxV else _) = y
  rw [if_neg (not_le.mpr hs), hy]
  have hdiv : (y - minV) / s = (k : ℚ) := by
    rw [hk]
    field_simp
  rw [hdiv, qround_intCast, ← hk, max_eq_left hminy, min_eq_left hmaxy]

/-- A step-grid point inside the range is a fixed point of `clamp`. -/
theorem clamp_eq_self {x minV maxV s : ℚ} (hs : 0 < s)
    (hmin : minV ≤ x) (hmax : x ≤ maxV) (hgrid : ∃ k : ℤ, x = minV + k * s) :
    clamp x minV maxV (some s) = x :=
  clamp_eq_of_rangeClamp hs (by rw [max_eq_left hmin, min_eq_left hmax]) hgrid hmin hmax

theorem strReplaceOnce_sublist (s pat : List Char) : (strReplaceOnce s pat).Sublist s := by
  unfold strReplaceOnce
  dsimp only
  split
  · exact List.Sublist.refl s
  · have h1 : (s.drop ((strIndexOf s pat).toNat + pat.length)).Sublist
        (s.drop (strIndexOf s pat).toNat) := by
      rw [← List.drop_drop]
      exact List.drop_sublist _ _
    have h2 := List.Sublist.append_left h1 (s.take (strIndexOf s pat).toNat)
    rw [List.take_append_drop] at h2
    exact h2

theorem replaceAllButFirstOccurrence_sublist (val char : List Char) :
    (replaceAllButFirstOccurrence val char).Sublist val := by
  unfold replaceAllButFirstOccurrence
  dsimp only
  have h1 := List.Sublist.append_left
    (strReplaceOnce_sublist (val.drop ((strIndexOf val char) + 1).toNat) char)
    (val.take ((strIndexOf val char) + 1).toNat)
  rw [List.take_append_drop] at h1
  exact h1

/-- Every character surviving sanitization is a resolved sign, a digit of the
active numeral system, or a locale-valid character. -/
theorem mem_strippedValueOf {cfg : Config} {system : NumeralSystem}
    {value : List Char} {c : Char} (h : c ∈ strippedValueOf cfg system value) :
    c ∈ (symbolsOf cfg).minusSign ∨ c ∈ (symbolsOf cfg).plusSign ∨
      c ∈ digitsOf system ∨ c ∈ (symbolsOf cfg).validCharacters := by
  unfold strippedValueOf at h
  dsimp only at h
  have h1 := (replaceAllButFirstOccurrence_sublist _ _).subset h
  have h2 := (replaceAllButFirstOccurrence_sublist _ _).subset h1
  have h3 := (replaceAllButFirstOccurrence_sublist _ _).subset h2
  have h4 := List.mem_filter.mp h3
  have h5 := h4.2
  simp only [Bool.or_eq_true, decide_eq_true_eq] at h5
  rcases h5 with ((hx | hx) | hx) | hx
  · exact Or.inl hx
  · exact Or.inr (Or.inl hx)
  · exact Or.inr (Or.inr (Or.inl hx))
  · exact Or.inr (Or.inr (Or.inr hx))

/-! ## Claim theorems -/

/-- C9: for every input string containing no digit glyph of any known
numeral system, `determineNumeralSystem` returns `latin` for the pass but
does not update the stored `currentNumeralSystem`: the whole state, the
previously detected system included, is returned unchanged. -/
theorem determineNumeralSystem_no_digit (st : EngineState) (value : List Char)
    (h : ∀ c ∈ value, ∀ sys ∈ numberingSystems, c ∉ sys.2) :
    determineNumeralSystem st value = (st, NumeralSystem.latin) := by
  have hdet : detectSystem value = none := by
    unfold detectSystem
    have hnone : numberingSystems.find? (fun sys =>
        value.any (fun char => sys.2.any (fun numeral => decide (numeral = char))))
        = none := by
      rw [List.find?_eq_none]
      intro sys hsys hpred
      rw [List.any_eq_true] at hpred
      obtain ⟨ch, hch, hin⟩ := hpred
      rw [List.any_eq_true] at hin
      obtain ⟨d, hd, hde⟩ := hin
      rw [decide_eq_true_eq] at hde
      exact h ch hch sys hsys (hde ▸ hd)
    rw [hnone]
    rfl
  unfold determineNumeralSystem
  rw [hdet]

/-- Witness for C9: sign/letter-only input under a previously detected
`hanidec` system: the pass reports `latin`, the stored system stays
`hanidec`. -/
theorem determineNumeralSystem_no_digit_witness :
    determineNumeralSystem ⟨none, [], none, NumeralSystem.hanidec⟩ ['a', '.'] =
      (⟨none, [], none, NumeralSystem.hanidec⟩, NumeralSystem.latin) :=
  determineNumeralSystem_no_digit _ _ (by decide)

/-- C3 fails on the code: `replaceAllButFirstOccurrence` builds its suffix
with single-occurrence `String.replace`, so an input of three minus signs
sanitizes to TWO minus signs, not one — both at the helper itself and
through the full `setValue` sanitization with an active minus sign (range
`[-100, 100]`). -/
theorem replaceAllButFirstOccurrence_keeps_second_minus :
    replaceAllButFirstOccurrence ['-', '-', '-'] ['-'] = ['-', '-'] ∧
    (setValue cfgNeg st0 ['-', '-', '-']).inputValue = ['-', '-'] := by
  exact ⟨by decide, by decide⟩

theorem runDispatch_head_from_none (vals : List (Option ℚ)) :
    ∀ b ∈ (runDispatch none vals).head?, b ≠ none := by
  induction vals with
  | nil => simp [runDispatch]
  | cons v vs ih =>
    match v with
    | none =>
      rw [show runDispatch none (none :: vs) = runDispatch none vs from by
        simp [runDispatch, smartOnChange]]
      exact ih
    | some q =>
      rw [show runDispatch none (some q :: vs) = some q :: runDispatch (some q) vs from by
        simp [runDispatch, smartOnChange]]
      simp

theorem runDispatch_chain (last : Option ℚ) (vals : List (Option ℚ)) :
    List.Chain' (fun a b => ¬(a = none ∧ b = none)) (runDispatch last vals) := by
  induction vals generalizing last with
  | nil => simp [runDispatch]
  | cons v vs ih =>
    match v with
    | some q =>
      rw [show runDispatch last (some q :: vs) = some q :: runDispatch (some q) vs from by
        simp [runDispatch, smartOnChange]]
      rw [List.chain'_cons']
      refine ⟨fun b _ => by simp, ih (some q)⟩
    | none =>
      match last with
      | none =>
        rw [show runDispatch none (none :: vs) = runDispatch none vs from by
          simp [runDispatch, smartOnChange]]
        exact ih none
      | some p =>
        rw [show runDispatch (some p) (none :: vs) = none :: runDispatch none vs from by
          simp [runDispatch, smartOnChange]]
        rw [List.chain'_cons']
        refine ⟨fun b hb hcontra => runDispatch_head_from_none vs b hb hcontra.2, ih none⟩

/-- C8: a dispatch through `smartOnChange` reaches the `onChange` callback
exactly unless the produced value and the last dispatched value are both NaN
(empty); consequently, over any sequence of produced values, the emitted
stream never contains two consecutive empty notifications. -/
theorem smartOnChange_suppression :
    (∀ last val : Option ℚ, (smartOnChange last val).2
        = if val = none ∧ last = none then [] else [val]) ∧
    (∀ (last : Option ℚ) (vals : List (Option ℚ)),
      List.Chain' (fun a b => ¬(a = none ∧ b = none)) (runDispatch last vals)) := by
  constructor
  · intro last val
    unfold smartOnChange
    by_cases h : val = none ∧ last = none
    · rw [if_neg (by simp [h.1, h.2]), if_pos h]
    · rw [if_pos (not_and_or.mp h), if_neg h]
  · exact runDispatch_chain

/-- C7: the numeral-system scan visits `arab`, `hanidec`, `latin` in that
fixed order and returns the first system owning some character of the input,
updating `currentNumeralSystem`; in particular an input containing a
Han-decimal digit and no Arabic-Indic digit selects `hanidec`, and the
subsequent sanitization keeps only Han-decimal digits besides the resolved
signs and locale-valid characters. -/
theorem detect_hanidec_strips_other_digits (st : EngineState) (value : List Char)
    (hhan : ∃ c ∈ value, c ∈ hanidecDigits) (harab : ∀ c ∈ value, c ∉ arabDigits) :
    (determineNumeralSystem st value).2 = NumeralSystem.hanidec ∧
    (determineNumeralSystem st value).1.currentNumeralSystem = NumeralSystem.hanidec ∧
    (∀ cfg : Config, ∀ c ∈ strippedValueOf cfg (determineNumeralSystem st value).2 value,
      c ∈ (symbolsOf cfg).minusSign ∨ c ∈ (symbolsOf cfg).plusSign ∨
        c ∈ hanidecDigits ∨ c ∈ (symbolsOf cfg).validCharacters) := by
  have hpred_arab : (value.any (fun char =>
      arabDigits.any (fun numeral => decide (numeral = char)))) = false := by
    rw [List.any_eq_false]
    intro ch hch hin
    rw [List.any_eq_true] at hin
    obtain ⟨d, hd, hde⟩ := hin
    rw [decide_eq_true_eq] at hde
    exact harab ch hch (hde ▸ hd)
  have hpred_han : (value.any (fun char =>
      hanidecDigits.any (fun numeral => decide (numeral = char)))) = true := by
    obtain ⟨c, hc, hcd⟩ := hhan
    rw [List.any_eq_true]
    exact ⟨c, hc, by rw [List.any_eq_true]; exact ⟨c, hcd, by simp⟩⟩
  have hdet : detectSystem value = some NumeralSystem.hanidec := by
    unfold detectSystem numberingSystems
    rw [List.find?_cons_of_neg _ (by simpa using hpred_arab),
      List.find?_cons_of_pos _ (by simpa using hpred_han)]
    rfl
  have h2 : (determineNumeralSystem st value).2 = NumeralSystem.hanidec := by
    unfold determineNumeralSystem
    rw [hdet]
  have h1 : (determineNumeralSystem st value).1.currentNumeralSystem
      = NumeralSystem.hanidec := by
    unfold determineNumeralSystem
    rw [hdet]
  refine ⟨h2, h1, ?_⟩
  intro cfg c hc
  have hmem := mem_strippedValueOf hc
  rw [h2] at hmem
  simpa [digitsOf] using hmem

/-- Witness for C7: input `"1一"` (a Latin and a Han-decimal digit): the scan
selects `hanidec` and updates the state; the full `setValue` sanitization on
range `[0, 100]` strips the Latin digit and keeps only `一`. -/
theorem detect_hanidec_strips_other_digits_witness :
    (determineNumeralSystem st0 ['1', '一']).2 = NumeralSystem.hanidec ∧
    (determineNumeralSystem st0 ['1', '一']).1.currentNumeralSystem
      = NumeralSystem.hanidec ∧
    (setValue cfg100 st0 ['1', '一']).inputValue = ['一'] := by
  have h := detect_hanidec_strips_other_digits st0 ['1', '一'] (by decide) (by decide)
  exact ⟨h.1, h.2.1, by decide⟩

/-- C6: the symbol resolver sets the minus sign to the empty string whenever
`minValue ≥ 0` and the plus sign to the empty string whenever
`maxValue ≤ 0`; consequently on range `[0, 100]` a typed `-` character is
stripped from the sanitized display text. -/
theorem sign_suppression :
    (∀ (negParts posParts : List Part) (minV maxV : ℚ), 0 ≤ minV →
      (computeSymbols negParts posParts minV maxV).minusSign = []) ∧
    (∀ (negParts posParts : List Part) (minV maxV : ℚ), maxV ≤ 0 →
      (computeSymbols negParts posParts minV maxV).plusSign = []) ∧
    (setValue cfg100 st0 ['-', '1', '2']).inputValue = ['1', '2'] := by
  refine ⟨?_, ?_, by decide⟩
  · intro negParts posParts minV maxV hmin
    unfold computeSymbols
    dsimp only
    rw [if_pos (Or.inl hmin)]
  · intro negParts posParts minV maxV hmax
    unfold computeSymbols
    dsimp only
    rw [if_pos (Or.inl hmax)]

/-- Witness for C6 at the range `[0, 100]` with the `en-US` probe parts. -/
theorem sign_suppression_witness :
    (computeSymbols enUSNegParts enUSPosParts 0 100).minusSign = [] :=
  sign_suppression.1 enUSNegParts enUSPosParts 0 100 (by norm_num)

theorem determineNumeralSystem_fields (st : EngineState) (value : List Char) :
    (determineNumeralSystem st value).1.numberValue = st.numberValue ∧
    (determineNumeralSystem st value).1.tempNum = st.tempNum ∧
    (determineNumeralSystem st value).1.inputValue = st.inputValue := by
  cases hd : detectSystem value with
  | none => simp [determineNumeralSystem, hd]
  | some s => simp [determineNumeralSystem, hd]

/-- C1 (amended): when the parse-ready remainder parses to a number strictly
greater than `maxValue` or strictly less than `minValue`, `setValue` is an
early return: the canonical value, the pending parsed value AND the display
text are all left unchanged — only the numeral-system detection side effect
has happened. -/
theorem setValue_out_of_range_frame (cfg : Config) (st : EngineState)
    (value : List Char) (v : ℚ)
    (hp : parsedValueOf cfg (determineNumeralSystem st value).2 value = some v)
    (hout : v > cfg.maxValue ∨ v < cfg.minValue) :
    setValue cfg st value = (determineNumeralSystem st value).1 ∧
    (setValue cfg st value).numberValue = st.numberValue ∧
    (setValue cfg st value).tempNum = st.tempNum ∧
    (setValue cfg st value).inputValue = st.inputValue := by
  have heq : setValue cfg st value = (determineNumeralSystem st value).1 := by
    unfold setValue
    dsimp only
    rw [hp]
    dsimp only
    rw [if_pos hout]
  have hf := determineNumeralSystem_fields st value
  rw [heq]
  exact ⟨rfl, hf.1, hf.2.1, hf.2.2⟩

/-- C1 fails as stated on the code: on range `[0, 10]`, input `"99"` parses
in range-violating position (`99 > 10`) and `setValue` leaves even the
display text unchanged (early return), instead of updating it to the
sanitized form `"99"` as the claim asserts. -/
theorem setValue_out_of_range_display_not_updated :
    strippedValueOf cfg10 NumeralSystem.latin ['9', '9'] = ['9', '9'] ∧
    setValue cfg10 ⟨some 5, ['5'], none, NumeralSystem.latin⟩ ['9', '9']
      = ⟨some 5, ['5'], none, NumeralSystem.latin⟩ ∧
    (setValue cfg10 ⟨some 5, ['5'], none, NumeralSystem.latin⟩ ['9', '9']).inputValue
      ≠ ['9', '9'] := by
  exact ⟨by decide, by decide, by decide⟩

/-- Witness for the amended C1 at range `[0, 10]` and input `"99"`. -/
theorem setValue_out_of_range_frame_witness :
    setValue cfg10 st0 ['9', '9'] = (determineNumeralSystem st0 ['9', '9']).1 ∧
    (setValue cfg10 st0 ['9', '9']).inputValue = st0.inputValue := by
  have h := setValue_out_of_range_frame cfg10 st0 ['9', '9'] ((99 : ℕ) : ℚ)
    (by decide) (by decide)
  exact ⟨h.1, h.2.2.2⟩

/-- Both operands integral: the decimal branch is skipped and the operation
is the plain one. -/
theorem handleDecimalOperation_int (operator : Char) {v1 v2 : ℚ}
    (h1 : v1.den = 1) (h2 : v2.den = 1) :
    handleDecimalOperation operator v1 v2
      = if operator = '+' then v1 + v2 else v1 - v2 := by
  unfold handleDecimalOperation
  rw [if_neg (by simp [h1, h2])]

theorem FiniteDec.add {a b : ℚ} (ha : FiniteDec a) (hb : FiniteDec b) :
    FiniteDec (a + b) := by
  obtain ⟨n, hn⟩ := ha
  obtain ⟨m, hm⟩ := hb
  exact ⟨n + m, dvd_trans (Rat.add_den_dvd a b) (by rw [pow_add]; exact mul_dvd_mul hn hm)⟩

theorem den_one_tenth : ((1 : ℚ) / 10).den = 10 := by
  have h := @Rat.den_div_eq_of_coprime 1 10 (by norm_num) (by decide)
  rw [show ((1 : ℤ) : ℚ) = (1 : ℚ) by norm_num,
    show ((10 : ℤ) : ℚ) = (10 : ℚ) by norm_num] at h
  exact_mod_cast h

theorem finiteDec_one_tenth : FiniteDec ((1 : ℚ) / 10) :=
  ⟨1, by rw [den_one_tenth]; norm_num⟩

theorem hdo_ten_minus_tenth : handleDecimalOperation '-' 10 (1 / 10) = 99 / 10 := by
  have hfd1 : FiniteDec (10 : ℚ) := ⟨0, by decide⟩
  rw [handleDecimalOperation_exact '-' hfd1 finiteDec_one_tenth, if_neg (by decide)]
  norm_num

/-- C4: from committed value 10 with step 0.1 on range `[0, 100]`, a single
`decrement()` produces exactly `99/10`: `handleDecimalOperation('-', 10, 0.1)`
scaled through integers is exact, and in particular differs from the
binary-float artifact `9.899999999999999`. -/
theorem decrement_decimal_exact :
    handleDecimalOperation '-' 10 (1 / 10) = 99 / 10 ∧
    (decrement cfgDec ⟨some 10, ['1', '0'], none, NumeralSystem.latin⟩).numberValue
      = some (99 / 10) ∧
    (99 / 10 : ℚ) ≠ 9899999999999999 / 1000000000000000 := by
  refine ⟨hdo_ten_minus_tenth, ?_, by norm_num⟩
  show some (clamp (handleDecimalOperation '-' 10 ((cfgDec.step).getD 1))
    cfgDec.minValue cfgDec.maxValue cfgDec.step) = some (99 / 10)
  rw [show (cfgDec.step).getD 1 = (1 / 10 : ℚ) from rfl,
    show cfgDec.minValue = (0 : ℚ) from rfl, show cfgDec.maxValue = (100 : ℚ) from rfl,
    show cfgDec.step = some (1 / 10 : ℚ) from rfl]
  rw [hdo_ten_minus_tenth]
  rw [clamp_eq_self (by norm_num) (by norm_num) (by norm_num)
    ⟨99, by push_cast; ring⟩]

theorem cfg10_not_maxRange : ¬ isMaxRange cfg10 := by
  intro h
  have h1 : (0 : ℚ) = -(2 ^ 53 - 1) := h.1
  norm_num at h1

theorem cfg10_min_ne_minSafe : ¬ (cfg10.minValue = minSafeInteger) := by
  intro h
  have h1 : (0 : ℚ) = -(2 ^ 53 - 1) := h
  norm_num at h1

/-- One `increment` on `[0, 10]` step 1 from a committed natural value `k`
yields `min (k + 1) 10`. -/
theorem increment_cfg10_nat (k : ℕ) (iv : List Char) (sys : NumeralSystem) :
    increment cfg10 ⟨some ((k : ℕ) : ℚ), iv, none, sys⟩
      = ⟨some (((min (k + 1) 10 : ℕ)) : ℚ), iv, none, sys⟩ := by
  unfold increment
  dsimp only
  have hhdo : handleDecimalOperation '+' ((k : ℕ) : ℚ) ((cfg10.step).getD 1)
      = (k : ℚ) + 1 := by
    rw [show (cfg10.step).getD 1 = (1 : ℚ) from rfl]
    rw [handleDecimalOperation_int '+' (Rat.den_natCast k) (by decide), if_pos rfl]
  rw [hhdo, show cfg10.minValue = (0 : ℚ) from rfl, show cfg10.maxValue = (10 : ℚ) from rfl,
    show cfg10.step = some (1 : ℚ) from rfl]
  rcases le_or_lt (k + 1) 10 with h | h
  · have hc : clamp ((k : ℚ) + 1) 0 10 (some 1) = (k : ℚ) + 1 := by
      refine clamp_eq_self (by norm_num) (by positivity) ?_ ⟨(k : ℤ) + 1, by push_cast; ring⟩
      exact_mod_cast h
    rw [hc, min_eq_left h]
    push_cast
    rfl
  · have h10 : (10 : ℚ) ≤ (k : ℚ) + 1 := by exact_mod_cast h.le
    have hc : clamp ((k : ℚ) + 1) 0 10 (some 1) = 10 := by
      refine clamp_eq_of_rangeClamp (by norm_num) ?_ ⟨10, by norm_num⟩ (by norm_num)
        (by norm_num)
      rw [max_eq_left (by positivity), min_eq_right h10]
    rw [hc, min_eq_right (by omega)]
    rfl

/-- One `increment` on `[0, 10]` step 1 from the empty value seeds from
`minValue = 0` and then adds the step: the result is 1, not 0. -/
theorem increment_cfg10_empty (iv : List Char) (sys : NumeralSystem) :
    increment cfg10 ⟨none, iv, none, sys⟩ = ⟨some 1, iv, none, sys⟩ := by
  unfold increment
  dsimp only
  rw [if_neg cfg10_not_maxRange, if_neg cfg10_min_ne_minSafe]
  have hhdo : handleDecimalOperation '+' cfg10.minValue ((cfg10.step).getD 1)
      = (1 : ℚ) := by
    rw [show (cfg10.step).getD 1 = (1 : ℚ) from rfl,
      show cfg10.minValue = (0 : ℚ) from rfl]
    rw [handleDecimalOperation_int '+' (by decide) (by decide), if_pos rfl]
    norm_num
  rw [hhdo, show cfg10.minValue = (0 : ℚ) from rfl, show cfg10.maxValue = (10 : ℚ) from rfl,
    show cfg10.step = some (1 : ℚ) from rfl]
  rw [clamp_eq_self (by norm_num) (by norm_num) (by norm_num) ⟨1, by norm_num⟩]

/-- C2 fails as stated on the code: from the empty (NaN) value on range
`[0, 10]` with step 1, the first `increment()` seeds the base from
`minValue = 0` and then adds the step, producing 1, not 0. -/
theorem increment_from_empty_first_is_one :
    (increment cfg10 st0).numberValue = some 1 ∧ (1 : ℚ) ≠ 0 := by
  refine ⟨?_, by norm_num⟩
  rw [show st0 = ⟨none, [], none, NumeralSystem.latin⟩ from rfl, increment_cfg10_empty]

/-- C2 (amended): on `[0, 10]` step 1 starting from the empty value, `n ≥ 1`
increments yield exactly `min n 10`: the first gives 1, ten increments reach
10, and every further increment stays at 10. -/
theorem increment_iterate_amended (n : ℕ) (hn : 1 ≤ n) :
    ((increment cfg10)^[n] st0).numberValue = some ((min n 10 : ℕ) : ℚ) ∧
    ((increment cfg10)^[n] st0).tempNum = none := by
  induction n with
  | zero => omega
  | succ m ih =>
    match m, ih with
    | 0, _ =>
      rw [Function.iterate_one]
      rw [show st0 = ⟨none, [], none, NumeralSystem.latin⟩ from rfl, increment_cfg10_empty]
      norm_num
    | m + 1, ih =>
      obtain ⟨h1, h2⟩ := ih (by omega)
      rw [Function.iterate_succ_apply']
      rcases hstate : (increment cfg10)^[m + 1] st0 with ⟨nv, iv, tn, sys⟩
      rw [hstate] at h1 h2
      dsimp only at h1 h2
      subst h1
      subst h2
      rw [increment_cfg10_nat]
      refine ⟨?_, rfl⟩
      dsimp only
      rw [show min (min (m + 1) 10 + 1) 10 = min (m + 1 + 1) 10 by omega]

/-- Witness for the amended C2: one increment gives 1, ten give 10, eleven
still 10. -/
theorem increment_iterate_amended_witness :
    ((increment cfg10)^[1] st0).numberValue = some 1 ∧
    ((increment cfg10)^[10] st0).numberValue = some 10 ∧
    ((increment cfg10)^[11] st0).numberValue = some 10 := by
  have w1 := (increment_iterate_amended 1 (by norm_num)).1
  have w10 := (increment_iterate_amended 10 (by norm_num)).1
  have w11 := (increment_iterate_amended 11 (by norm_num)).1
  norm_num at w1 w10 w11
  exact ⟨w1, w10, w11⟩

/-- C5: from a committed finite-decimal value `v` strictly inside the range
and on the step grid, with finite-decimal positive step `s` such that `v + s`
is also strictly inside the range, and no pending parsed value, `increment()`
followed by `decrement()` returns the value to exactly `v`. -/
theorem increment_decrement_roundtrip (cfg : Config) (st : EngineState) (v s : ℚ)
    (hstep : cfg.step = some s) (hs : 0 < s)
    (hv : FiniteDec v) (hsf : FiniteDec s)
    (hval : st.numberValue = some v) (htemp : st.tempNum = none)
    (hgrid : ∃ k : ℤ, v = cfg.minValue + k * s)
    (h1 : cfg.minValue < v) (h2 : v < cfg.maxValue)
    (h3 : cfg.minValue < v + s) (h4 : v + s < cfg.maxValue) :
    (decrement cfg (increment cfg st)).numberValue = some v := by
  obtain ⟨k, hk⟩ := hgrid
  have hinc : increment cfg st = { st with numberValue := some (v + s), tempNum := none } := by
    unfold increment
    dsimp only
    rw [hval, htemp, hstep]
    dsimp only
    rw [Option.getD_some]
    rw [handleDecimalOperation_exact '+' hv hsf, if_pos rfl]
    rw [clamp_eq_self hs (le_of_lt h3) (le_of_lt h4)
      ⟨k + 1, by rw [hk]; push_cast; ring⟩]
  rw [hinc]
  unfold decrement
  dsimp only
  rw [hstep, Option.getD_some]
  rw [handleDecimalOperation_exact '-' (hv.add hsf) hsf, if_neg (by decide)]
  rw [show v + s - s = v by ring]
  rw [clamp_eq_self hs (le_of_lt h1) (le_of_lt h2) ⟨k, hk⟩]

/-- Witness for C5 at range `[0, 10]`, step 1, committed value 5. -/
theorem increment_decrement_roundtrip_witness :
    (decrement cfg10
      (increment cfg10 ⟨some 5, ['5'], none, NumeralSystem.latin⟩)).numberValue
      = some 5 :=
  increment_decrement_roundtrip cfg10 ⟨some 5, ['5'], none, NumeralSystem.latin⟩ 5 1
    rfl (by norm_num) ⟨0, by decide⟩ ⟨0, by decide⟩ rfl rfl
    ⟨5, by norm_num [cfg10]⟩ (by norm_num [cfg10]) (by norm_num [cfg10])
    (by norm_num [cfg10]) (by norm_num [cfg10])

/-- C10: `incrementToMax` and `decrementToMin` set the clamped bound without
reading or clearing the pending parsed value, which therefore survives and is
consumed as the base by the next `increment`, `decrement` or
`commitInputValue`; whereas `increment`, `decrement` and `commitInputValue`
always finish with the pending value cleared. -/
theorem pending_value_frame (cfg : Config) (st : EngineState) (t : ℚ) :
    (incrementToMax cfg st).tempNum = st.tempNum ∧
    (decrementToMin cfg st).tempNum = st.tempNum ∧
    (incrementToMax cfg st).numberValue
      = some (clamp cfg.maxValue cfg.minValue cfg.maxValue cfg.step) ∧
    (decrementToMin cfg st).numberValue
      = some (clamp cfg.minValue cfg.minValue cfg.maxValue cfg.step) ∧
    (increment cfg st).tempNum = none ∧
    (decrement cfg st).tempNum = none ∧
    (commitInputValue cfg st).tempNum = none ∧
    (st.tempNum = some t →
      (increment cfg st).numberValue = some (clamp
        (handleDecimalOperation '+' t ((cfg.step).getD 1))
        cfg.minValue cfg.maxValue cfg.step) ∧
      (decrement cfg st).numberValue = some (clamp
        (handleDecimalOperation '-' t ((cfg.step).getD 1))
        cfg.minValue cfg.maxValue cfg.step) ∧
      (st.inputValue ≠ [] →
        (commitInputValue cfg st).numberValue
          = some (clamp t cfg.minValue cfg.maxValue cfg.step))) := by
  refine ⟨rfl, rfl, rfl, rfl, rfl, rfl, ?_, ?_⟩
  · unfold commitInputValue
    split
    · rfl
    · rfl
  · intro ht
    refine ⟨?_, ?_, ?_⟩
    · unfold increment
      dsimp only
      rw [ht]
    · unfold decrement
      dsimp only
      rw [ht]
    · intro hne
      unfold commitInputValue
      rw [if_neg (by simpa [List.length_eq_zero] using hne)]
      dsimp only
      rw [ht]

/-- Witness for C10: a stale pending value 5 survives `incrementToMax` and is
consumed as the base by the next `increment` (5 + 1 = 6, not 7 + 1). -/
theorem pending_value_frame_witness :
    (incrementToMax cfg10 ⟨some 7, ['7'], some 5, NumeralSystem.latin⟩).tempNum
      = some 5 ∧
    (increment cfg10 ⟨some 7, ['7'], some 5, NumeralSystem.latin⟩).numberValue
      = some 6 ∧
    (increment cfg10 ⟨some 7, ['7'], some 5, NumeralSystem.latin⟩).tempNum = none := by
  have h := pending_value_frame cfg10 ⟨some 7, ['7'], some 5, NumeralSystem.latin⟩ 5
  refine ⟨h.1, ?_, h.2.2.2.2.1⟩
  rw [(h.2.2.2.2.2.2.2 rfl).1]
  rw [show (cfg10.step).getD 1 = (1 : ℚ) from rfl, show cfg10.minValue = (0 : ℚ) from rfl,
    show cfg10.maxValue = (10 : ℚ) from rfl, show cfg10.step = some (1 : ℚ) from rfl]
  rw [handleDecimalOperation_int '+' (by decide) (by decide), if_pos rfl]
  rw [show (5 : ℚ) + 1 = 6 by norm_num]
  rw [clamp_eq_self (by norm_num) (by norm_num) (by norm_num) ⟨6, by norm_num⟩]

end NumberField
